import Mathlib

/-!
# Verification of the go-annotate asynchronous log-delivery pipeline

A shallow embedding of the `log` package of `specmon/go-annotate`:
the value formatter (`format`), the event constructors (`LogEnter` /
`LogLeave`), the text encoder (`FuncCall.String` / `formatEvent`), the
non-blocking enqueue (`Logger.Log`), the socket delivery worker
(`manageConnectionAndSend`: backoff, disconnection drain into the backlog
with batch eviction, and the backlog flush after a successful dial), the
file-sink worker (`processLogQueueToFile`) and the destination classifier
(`isSocketAddress`).  Machine integers are modelled as `Nat`/`Int`;
floating-point arguments of the formatter are modelled as the rational
value of their decimal literal; network and encoder outcomes are modelled
as boolean oracles.
-/

namespace GoAnnotate

/-! ## Decimal and hexadecimal rendering

`strconv.FormatUint` / `strconv.FormatInt` (base 10) and the lowercase hex
encoding of `encoding/hex` (`hex.AppendEncode`, used via `appendHex`). -/

/-- The decimal digit character for `n < 10` (ASCII `'0' + n`). -/
def decDigit (n : Nat) : Char := Char.ofNat (48 + n)

/-- Decimal digits of `n`, most significant first; `fuel` bounds the
recursion and `fuel > n` is always enough. -/
def decDigits (fuel n : Nat) : List Char :=
  match fuel with
  | 0 => []
  | fuel' + 1 =>
    if n < 10 then [decDigit n]
    else decDigits fuel' (n / 10) ++ [decDigit (n % 10)]

/-- `strconv.FormatUint(n, 10)`: decimal rendering of an unsigned integer. -/
def formatUint (n : Nat) : String := ⟨decDigits (n + 1) n⟩

/-- `strconv.FormatInt(i, 10)`: decimal rendering of a signed integer. -/
def formatInt (i : Int) : String :=
  if i < 0 then "-" ++ formatUint i.natAbs else formatUint i.natAbs

/-- The lowercase hexadecimal digit character for `n < 16`. -/
def hexDigit (n : Nat) : Char :=
  if n < 10 then Char.ofNat (48 + n) else Char.ofNat (87 + n)

/-- The two lowercase hex characters of one byte (`encoding/hex`). -/
def byteHex (b : Nat) : List Char := [hexDigit (b / 16 % 16), hexDigit (b % 16)]

/-- `appendHex`: lowercase hex encoding of a byte sequence. -/
def bytesHex (bs : List Nat) : List Char := bs.flatMap byteHex

/-! ## Fixed 6-decimal float rendering

`strconv.FormatFloat(v, 'f', 6, _)`.  The float argument is modelled as
the exact rational value being rendered; rendering scales by `10^6`,
rounds half-up and prints `intPart.fracPart` with the fractional part
zero-padded to six digits. -/

/-- Zero-pad the decimal rendering of `n` on the left to `w` characters. -/
def padZeros (w : Nat) (n : Nat) : List Char :=
  let ds := decDigits (n + 1) n
  List.replicate (w - ds.length) '0' ++ ds

/-- `strconv.FormatFloat(q, 'f', 6, _)` on the rational value `q`:
`n` is `|q| * 10^6` rounded half-up, computed on the numerator and
denominator with natural-number arithmetic. -/
def formatFloat6 (q : ℚ) : String :=
  let n : Nat := (q.num.natAbs * 1000000 * 2 + q.den) / (2 * q.den)
  let intPart := n / 1000000
  let fracPart := n % 1000000
  ⟨(if q.num < 0 then ['-'] else []) ++ decDigits (intPart + 1) intPart
    ++ '.' :: padZeros 6 fracPart⟩

/-! ## Go string quoting

`fmt.Sprintf("%q", s)`: the string wrapped in double quotes, with `"`
and `\` backslash-escaped, common control characters rendered with their
mnemonic escapes, other printable ASCII characters kept verbatim, and
remaining low bytes rendered as `\xhh`.  (Runes above ASCII are modelled
by their `\x` byte escape of the low byte; no claim depends on them.) -/

/-- The `%q` escape of a single character. -/
def quoteChar (c : Char) : List Char :=
  if c = '"' then ['\\', '"']
  else if c = '\\' then ['\\', '\\']
  else if c = '\n' then ['\\', 'n']
  else if c = '\t' then ['\\', 't']
  else if c = '\r' then ['\\', 'r']
  else if 32 ≤ c.toNat && c.toNat < 127 then [c]
  else '\\' :: 'x' :: byteHex (c.toNat % 256)

/-- `fmt.Sprintf("%q", s)`. -/
def goQuote (s : String) : String :=
  ⟨'"' :: s.data.flatMap quoteChar ++ ['"']⟩

/-! ## The value formatter

`format(i any) string`.  The dynamic value is modelled as a closed sum
over the categories the Go type switch (and its `reflect` default arm)
dispatches on: the signed integer cases collapse to `vint` and the
unsigned ones to `vuint` (each Go case renders only the numeric value);
`v32arr` carries the 32 bytes of a `[32]uint8`, `vptr32arr` a possibly
nil `*[32]uint8`, `varrU32x8` the eight words of an `[8]uint32` (rendered
from their little-endian bytes, as the `unsafe.Pointer` cast does);
`vptr`, `vslice`, `vmap`, `vchan` and `vfunc` model the `reflect.Kind`
default arms, with `%p` of a non-nil pointer modelled as its `0x`-hex
address; `vother` models the last-resort arm of the `reflect` switch,
`fmt.Sprintf("%v", i)`, carrying the `%v` rendering of the value (for a
value of a named string type, `%v` yields the underlying string
contents, so an empty such value carries `""`). -/

inductive GoValue where
  | vnil
  | vint (i : Int)
  | vuint (n : Nat)
  | vfloat (q : ℚ)
  | vbytes (bs : List Nat)
  | vbytesList (bss : List (List Nat))
  | varrU32x8 (ws : List Nat)
  | v32arr (bs : List Nat)
  | vptr32arr (p : Option (List Nat))
  | vstring (s : String)
  | vbool (b : Bool)
  | verror (msg : String)
  | vptr (p : Option Nat)
  | vslice (len : Nat) (elemType : String)
  | vmap (len : Nat)
  | vchan (elemType : String)
  | vfunc (typeStr : String)
  | vother (repr : String)
deriving DecidableEq

/-- The little-endian bytes of one `uint32`. -/
def leBytes4 (w : Nat) : List Nat :=
  [w % 256, w / 256 % 256, w / 65536 % 256, w / 16777216 % 256]

/-- `format`: total conversion of a logged value to its string
representation, mirroring the Go type switch case by case. -/
def format : GoValue → String
  | .vnil => ""
  | .vint i => formatInt i
  | .vuint n => formatUint n
  | .vfloat q => formatFloat6 q
  | .vbytes bs => if bs.length = 0 then "0x" else ⟨'0' :: 'x' :: bytesHex bs⟩
  | .vbytesList bss =>
    if bss.length = 0 then "0x"
    else ⟨'0' :: 'x' :: List.intercalate ['|'] (bss.map bytesHex)⟩
  | .varrU32x8 ws => ⟨'0' :: 'x' :: bytesHex (ws.flatMap leBytes4)⟩
  | .v32arr bs => ⟨'0' :: 'x' :: bytesHex bs⟩
  | .vptr32arr none => "<nil>"
  | .vptr32arr (some bs) => ⟨'0' :: 'x' :: bytesHex bs⟩
  | .vstring s => goQuote s
  | .vbool b => if b then "1" else "0"
  | .verror msg => goQuote msg
  | .vptr none => "<nil>"
  | .vptr (some addr) => ⟨'0' :: 'x' :: bytesHex (leBytes4 addr).reverse⟩
  | .vslice len elemType => "[" ++ formatUint len ++ "]" ++ elemType
  | .vmap len => "map[" ++ formatUint len ++ "]"
  | .vchan elemType => "chan(" ++ elemType ++ ")"
  | .vfunc typeStr => "func(" ++ typeStr ++ ")"
  | .vother repr => repr

/-! ## Events and the emitter API

`FuncCall` carries the already-formatted argument and result strings of
one event together with its timestamp (modelled as an integer of
nanoseconds).  `LogEnter` / `LogLeave` build the event passed to `Log`;
their construction is pure up to the timestamp, which is passed in. -/

structure FuncCall where
  Name : String
  Args : List String
  Results : List String
  Time : Int
deriving DecidableEq

def separator : String := "_"
def EnterSuffix : String := "Enter"
def LeaveSuffix : String := "Leave"

/-- The event built by `Logger.LogEnter(id, name, args)`:
name `name + "_" + "Enter"`, args `FormatUint(id)` followed by the
formatted arguments, no results. -/
def logEnterEvent (now : Int) (id : Nat) (name : String) (args : List GoValue) :
    FuncCall :=
  { Name := name ++ separator ++ EnterSuffix
    Args := formatUint id :: args.map format
    Results := []
    Time := now }

/-- The event built by `Logger.LogLeave(id, name, args, results)`:
name `name + "_" + "Leave"`, args `FormatUint(id)` followed by the
formatted arguments, results the formatted result values. -/
def logLeaveEvent (now : Int) (id : Nat) (name : String) (args : List GoValue)
    (results : List GoValue) : FuncCall :=
  { Name := name ++ separator ++ LeaveSuffix
    Args := formatUint id :: args.map format
    Results := results.map format
    Time := now }

/-! ## Text encoding

`FuncCall.String` and the `FormatText` arm of `formatEvent`, which
appends the trailing newline. -/

/-- `FuncCall.String()`: `"<name>(<args>)"`, or
`"<name>(<args>) = (<results>)"` when results are present. -/
def FuncCall.string (f : FuncCall) : String :=
  if f.Results.length = 0 then
    f.Name ++ "(" ++ String.intercalate ", " f.Args ++ ")"
  else
    f.Name ++ "(" ++ String.intercalate ", " f.Args ++ ") = ("
      ++ String.intercalate ", " f.Results ++ ")"

/-- The `FormatText` arm of `formatEvent`: the text rendering of the
event followed by a newline byte. -/
def formatEventText (f : FuncCall) : String := f.string ++ "\n"

/-! ## The non-blocking enqueue

`Logger.Log(fn)`: a non-blocking send on the buffered event channel,
modelled as one sequential step on the buffer contents.  The send
succeeds exactly when the buffer holds fewer events than its capacity;
otherwise the `default` branch drops the event and prints one of two
diagnostics, chosen by whether the configured target is a socket
address. -/

structure EventQueue where
  capacity : Nat
  items : List FuncCall
deriving DecidableEq

/-- The diagnostic printed when the buffer is full. -/
def dropDiagnostic (socketMode : Bool) (fn : FuncCall) : String :=
  if socketMode then
    "Critical: Socket event buffer full (network issue?), dropping event: " ++ fn.Name
  else
    "Warning: Event buffer full, dropping event: " ++ fn.Name

/-- `Logger.Log(fn)`: returns the new buffer contents and the emitted
diagnostic, if any.  The call is a total function of the current state:
it always returns, and no error is surfaced to the caller. -/
def logStep (socketMode : Bool) (q : EventQueue) (fn : FuncCall) :
    EventQueue × Option String :=
  if q.items.length < q.capacity then
    ({ q with items := q.items ++ [fn] }, none)
  else
    (q, some (dropDiagnostic socketMode fn))

/-! ## Destination classification

`isSocketAddress(addr)`: `strings.Contains(addr, ":") &&
!strings.Contains(addr, "/") && !strings.Contains(addr, "\\")`.
`goContains` is `strings.Contains` on the character lists. -/

/-- `strings.Contains(s, sub)`. -/
def goContains (s sub : String) : Bool := decide (sub.data <:+: s.data)

/-- `isSocketAddress(addr)`: true exactly for `host:port`-shaped strings
with no path separators. -/
def isSocketAddress (addr : String) : Bool :=
  goContains addr ":" && !goContains addr "/" && !goContains addr "\\"

/-! ## Reconnect backoff

`manageConnectionAndSend`'s retry clock: `retryBase = 1s`,
`maxRetry = 30s`; each failed dial waits the current delay and then
doubles it, capped at the maximum; a successful dial resets it to the
base.  Dial attempts use `net.DialTimeout(..., 5s)`.  Delays are in
whole seconds. -/

def retryBaseS : Nat := 1
def maxRetryS : Nat := 30
def dialTimeoutS : Nat := 5

/-- The delay after one more consecutive failed dial:
`currentRetry *= 2`, clamped to `maxRetry`. -/
def backoffNext (cur : Nat) : Nat := min (cur * 2) maxRetryS

/-- Runs the dial loop's retry clock over a sequence of dial outcomes
(`true` = dial succeeded), starting from delay `cur`.  Returns the list
of waits the worker performs (one per failed dial, in order) and the
final delay value. -/
def backoffTrace (cur : Nat) : List Bool → List Nat × Nat
  | [] => ([], cur)
  | ok :: rest =>
    if ok then backoffTrace retryBaseS rest
    else
      let (ws, fin) := backoffTrace (backoffNext cur) rest
      (cur :: ws, fin)

/-! ## The disconnection drain and the backlog overflow policy

While a dial has failed, the worker drains every arriving event into
`eventBacklog`; after each append, if the backlog length exceeds 10000
the oldest 2000 events are dropped in one batch
(`eventBacklog = eventBacklog[2000:]`). -/

def backlogLimit : Nat := 10000
def evictBatch : Nat := 2000

/-- One drain step: append the arriving event, then apply the overflow
eviction. -/
def backlogAppend (b : List FuncCall) (fn : FuncCall) : List FuncCall :=
  let b2 := b ++ [fn]
  if backlogLimit < b2.length then b2.drop evictBatch else b2

/-- The whole disconnection drain: every event arriving during the wait
is appended in arrival order. -/
def disconnectDrain (b : List FuncCall) (arrivals : List FuncCall) : List FuncCall :=
  arrivals.foldl backlogAppend b

/-! ## The backlog flush and the connected send loop

After a successful dial the worker first walks `eventBacklog` by index
`i`: events whose encoding fails (`formatEvent` returned nil) are
skipped, and on the first failed socket write the loop stops and keeps
`eventBacklog[i:]` — the unflushed suffix, failed event included — as
the new backlog.  Only when the whole backlog has been flushed does the
worker clear it and resume draining the live channel; there a failed
write puts the single failed event into the (empty) backlog and breaks
to reconnect.  `encOk fn` models `formatEvent fn ≠ nil`; `writeOk i`
models the outcome of the socket write attempted at backlog index `i`
(respectively at the `k`-th write of the live loop). -/

/-- The backlog walk from index `i`: returns the events written (in
order) and `some j` for the index of the first failed write, or `none`
when the walk completed. -/
def flushWalk (encOk : FuncCall → Bool) (writeOk : Nat → Bool) :
    Nat → List FuncCall → List FuncCall × Option Nat
  | _, [] => ([], none)
  | i, fn :: rest =>
    if encOk fn then
      if writeOk i then
        let (s, f) := flushWalk encOk writeOk (i + 1) rest
        (fn :: s, f)
      else ([], some i)
    else flushWalk encOk writeOk (i + 1) rest

/-- The whole backlog flush: on success the backlog is cleared
(`eventBacklog = nil`); on a write failure at index `i` the new backlog
is `eventBacklog[i:]`.  Returns (events written, new backlog, flush
completed). -/
def flushBacklog (encOk : FuncCall → Bool) (writeOk : Nat → Bool)
    (backlog : List FuncCall) : List FuncCall × List FuncCall × Bool :=
  match flushWalk encOk writeOk 0 backlog with
  | (sent, none) => (sent, [], true)
  | (sent, some i) => (sent, backlog.drop i, false)

/-- The live send loop over the events the channel will deliver, with
`k` counting write attempts: returns (events written, backlog after the
loop, events still undelivered in the channel). -/
def liveSend (encOk : FuncCall → Bool) (writeOk : Nat → Bool) :
    Nat → List FuncCall → List FuncCall × List FuncCall × List FuncCall
  | _, [] => ([], [], [])
  | k, fn :: rest =>
    if encOk fn then
      if writeOk k then
        let (s, b, r) := liveSend encOk writeOk (k + 1) rest
        (fn :: s, b, r)
      else ([], [fn], rest)
    else liveSend encOk writeOk k rest

/-- One connected episode of the worker: flush the backlog first; only
if the flush completed, drain the live channel.  Returns (events
written to the socket in order, backlog carried to the next connection,
events left in the channel). -/
def connectedRound (encOk : FuncCall → Bool) (writeOkB writeOkQ : Nat → Bool)
    (backlog queue : List FuncCall) :
    List FuncCall × List FuncCall × List FuncCall :=
  match flushBacklog encOk writeOkB backlog with
  | (sent, newB, false) => (sent, newB, queue)
  | (sent, _, true) =>
    let (s, b, r) := liveSend encOk writeOkQ 0 queue
    (sent ++ s, b, r)

/-! ## The file-sink worker

`processLogQueueToFile`: for every event received from the channel the
worker encodes it and attempts one write; a failed write only logs a
line and the loop continues with the next event.  `writeOk i` models
the outcome of the write for the `i`-th event. -/

/-- The file worker over the events the channel delivers: returns the
byte messages written (one attempt per event, in order) and the error
lines logged for failed writes. -/
def processLogQueueToFile (encode : FuncCall → List Nat) (writeOk : Nat → Bool) :
    Nat → List FuncCall → List (List Nat) × List String
  | _, [] => ([], [])
  | i, fn :: rest =>
    let (ws, errs) := processLogQueueToFile encode writeOk (i + 1) rest
    (encode fn :: ws,
      if writeOk i then errs
      else ("Fatal: Failed to write to log file: event " ++ formatUint i) :: errs)

/-! ## Helper lemmas -/

/-- With any positive fuel, the decimal rendering is a nonempty
character list. -/
theorem decDigits_ne_nil (fuel n : Nat) : decDigits (fuel + 1) n ≠ [] := by
  simp only [decDigits]
  split
  · simp
  · exact fun h => by simp at h

/-- `formatUint` never returns the empty string. -/
theorem formatUint_ne_empty (n : Nat) : formatUint n ≠ "" := by
  intro h
  rw [String.ext_iff] at h
  exact decDigits_ne_nil n n h

/-- A one-character string is contained in a string exactly when the
character occurs in it. -/
theorem singleton_infix_iff (c : Char) (l : List Char) : [c] <:+: l ↔ c ∈ l := by
  constructor
  · intro h
    exact List.singleton_sublist.mp h.sublist
  · intro h
    obtain ⟨s, t, rfl⟩ := List.append_of_mem h
    exact ⟨s, t, by simp⟩

/-! ## C5: the specified formatter outputs -/

/-- C5: the formatter is total by construction and produces the
specified outputs: `format(42) = "42"`, `format(3.14159) = "3.141590"`,
`format("hello") = "\"hello\""`, `format(true) = "1"`,
`format(false) = "0"`,
`format([]byte{0x48,0x65,0x6c,0x6c,0x6f}) = "0x48656c6c6f"`,
`format([]byte{}) = "0x"` and `format(nil) = ""`. -/
theorem format_specified_values :
    format (.vint 42) = "42" ∧
    format (.vfloat 3.14159) = "3.141590" ∧
    format (.vstring "hello") = "\"hello\"" ∧
    format (.vbool true) = "1" ∧
    format (.vbool false) = "0" ∧
    format (.vbytes [0x48, 0x65, 0x6c, 0x6c, 0x6f]) = "0x48656c6c6f" ∧
    format (.vbytes []) = "0x" ∧
    format .vnil = "" := by
  refine ⟨by decide, ?_, by decide, by decide, by decide, by decide, by decide,
    by decide⟩
  have hn : (3.14159 : ℚ).num = 314159 := by norm_num
  have hd : (3.14159 : ℚ).den = 100000 := by norm_num
  simp only [format, formatFloat6, hn, hd]
  decide

/-! ## C6: the events built by `LogEnter` and `LogLeave` -/

/-- C6: `LogEnter(id, name, args)` builds the event with name
`name + "_Enter"`, args `format(id)` followed by the element-wise
formatted arguments, and no results; `LogLeave(id, name, args, results)`
builds the event with name `name + "_Leave"`, the same args, and the
element-wise formatted results. -/
theorem logEnter_logLeave_events (now : Int) (id : Nat) (name : String)
    (args results : List GoValue) :
    logEnterEvent now id name args
      = ⟨name ++ "_Enter", formatUint id :: args.map format, [], now⟩ ∧
    logLeaveEvent now id name args results
      = ⟨name ++ "_Leave", formatUint id :: args.map format,
          results.map format, now⟩ := by
  constructor <;>
    simp [logEnterEvent, logLeaveEvent, separator, EnterSuffix, LeaveSuffix,
      String.append_assoc]

/-! ## C7: the text encoding -/

/-- C7: the text encoding of an event is `"<name>(<args>)"` when the
results are empty and `"<name>(<args>) = (<results>)"` otherwise, with
args and results joined by `", "`, and the encoded message is
newline-terminated. -/
theorem text_encoding (f : FuncCall) :
    (f.Results = [] →
      formatEventText f
        = f.Name ++ "(" ++ String.intercalate ", " f.Args ++ ")" ++ "\n") ∧
    (f.Results ≠ [] →
      formatEventText f
        = f.Name ++ "(" ++ String.intercalate ", " f.Args ++ ") = ("
            ++ String.intercalate ", " f.Results ++ ")" ++ "\n") := by
  constructor
  · intro h
    simp [formatEventText, FuncCall.string, h]
  · intro h
    have : f.Results.length ≠ 0 := by simpa using h
    simp [formatEventText, FuncCall.string, this]

/-- Witness for C7 at one event without and one with results. -/
theorem text_encoding_witness :
    formatEventText ⟨"f", ["1", "\"a\""], [], 0⟩
      = "f" ++ "(" ++ String.intercalate ", " ["1", "\"a\""] ++ ")" ++ "\n" ∧
    formatEventText ⟨"g", ["2"], ["0"], 0⟩
      = "g" ++ "(" ++ String.intercalate ", " ["2"] ++ ") = ("
          ++ String.intercalate ", " ["0"] ++ ")" ++ "\n" :=
  ⟨(text_encoding ⟨"f", ["1", "\"a\""], [], 0⟩).1 rfl,
   (text_encoding ⟨"g", ["2"], ["0"], 0⟩).2 (by decide)⟩

/-! ## C2: the non-blocking enqueue -/

/-- C2: `Logger.Log` is a non-blocking enqueue: with free capacity the
event is appended to the buffer and no diagnostic is emitted; on a full
buffer the event is dropped, the buffer is unchanged and a diagnostic
is emitted.  In both cases the call returns a value of the result type,
which carries no error, so nothing is surfaced to the caller. -/
theorem log_nonblocking (socketMode : Bool) (q : EventQueue) (fn : FuncCall) :
    (q.items.length < q.capacity →
      logStep socketMode q fn = ({ q with items := q.items ++ [fn] }, none)) ∧
    (¬ q.items.length < q.capacity →
      logStep socketMode q fn = (q, some (dropDiagnostic socketMode fn))) := by
  constructor <;> intro h <;> simp [logStep, h]

/-- Witness for C2: an enqueue into a buffer with room and a drop from
a full buffer. -/
theorem log_nonblocking_witness :
    logStep false ⟨2, []⟩ ⟨"e", [], [], 0⟩
      = (⟨2, [⟨"e", [], [], 0⟩]⟩, none) ∧
    logStep false ⟨0, []⟩ ⟨"e", [], [], 0⟩
      = (⟨0, []⟩, some (dropDiagnostic false ⟨"e", [], [], 0⟩)) :=
  ⟨(log_nonblocking false ⟨2, []⟩ ⟨"e", [], [], 0⟩).1 (by decide),
   (log_nonblocking false ⟨0, []⟩ ⟨"e", [], [], 0⟩).2 (by decide)⟩

/-! ## C8: destination classification -/

/-- C8: a destination string is classified as a stream-socket address
exactly when it contains `":"` and contains neither `"/"` nor `"\"`;
consequently every path-like string (one containing `"/"` or `"\"`) is
classified as a file or local-domain-socket destination. -/
theorem socket_address_classification (addr : String) :
    (isSocketAddress addr = true ↔
      (':' ∈ addr.data ∧ '/' ∉ addr.data ∧ '\\' ∉ addr.data)) ∧
    (('/' ∈ addr.data ∨ '\\' ∈ addr.data) → isSocketAddress addr = false) := by
  have hmain : isSocketAddress addr = true ↔
      (':' ∈ addr.data ∧ '/' ∉ addr.data ∧ '\\' ∉ addr.data) := by
    simp only [isSocketAddress, goContains, Bool.and_eq_true, Bool.not_eq_true',
      decide_eq_true_eq, decide_eq_false_iff_not]
    simp [singleton_infix_iff, and_assoc]
  refine ⟨hmain, fun h => ?_⟩
  rcases Bool.eq_false_or_eq_true (isSocketAddress addr) with ht | hf
  · rcases h with h | h
    · exact absurd h (hmain.mp ht).2.1
    · exact absurd h (hmain.mp ht).2.2
  · exact hf

/-- Witness for C8: `"localhost:8080"` is a socket address and
`"/tmp/log.sock"` is path-like, hence not one. -/
theorem socket_address_classification_witness :
    isSocketAddress "/tmp/log.sock" = false :=
  (socket_address_classification "/tmp/log.sock").2 (Or.inl (by decide))

/-! ## C4: the reconnect backoff -/

/-- Every wait in a backoff trace started at a delay within the cap
stays within the cap. -/
theorem backoffTrace_waits_le (rest : List Bool) :
    ∀ cur, cur ≤ maxRetryS → ∀ w ∈ (backoffTrace cur rest).1, w ≤ maxRetryS := by
  induction rest with
  | nil => intro cur _ w hw; simp [backoffTrace] at hw
  | cons ok rest ih =>
    intro cur hcur w hw
    cases ok with
    | true =>
      simp only [backoffTrace, if_pos] at hw
      exact ih retryBaseS (by simp [retryBaseS, maxRetryS]) w hw
    | false =>
      simp only [backoffTrace, Bool.false_eq_true, if_false] at hw
      rcases List.mem_cons.mp hw with rfl | hw
      · exact hcur
      · exact ih (backoffNext cur) (Nat.min_le_right _ _) w hw

/-- Started from the delay after `k` consecutive failures, `n` further
consecutive failed dials wait `min (2^(k+j)) 30` seconds at the `j`-th. -/
theorem backoffTrace_replicate (n : Nat) :
    ∀ k, (backoffTrace (min (2 ^ k) maxRetryS) (List.replicate n false)).1
      = (List.range n).map (fun j => min (2 ^ (k + j)) maxRetryS) := by
  induction n with
  | zero => intro k; simp [backoffTrace]
  | succ n ih =>
    intro k
    have hnext : backoffNext (min (2 ^ k) maxRetryS) = min (2 ^ (k + 1)) maxRetryS := by
      simp only [backoffNext, maxRetryS, pow_succ]
      omega
    simp only [List.replicate_succ, backoffTrace, Bool.false_eq_true, if_false,
      hnext, ih (k + 1), List.range_succ_eq_map, List.map_cons, List.map_map]
    congr 1
    refine List.map_congr_left fun j _ => ?_
    simp only [Function.comp_apply]
    congr 2
    omega

/-- C4: the backoff starts at the base of 1 second; a failed dial waits
the current delay and then doubles it, capped at 30 seconds; a
successful dial resets it to the base; from a reset, `n` consecutive
failures wait `1, 2, 4, …` seconds capped at 30; every wait is at most
30 seconds; and each dial attempt uses the bounded 5-second timeout. -/
theorem backoff_behaviour (cur : Nat) (rest : List Bool) (n : Nat)
    (hcur : cur ≤ maxRetryS) :
    retryBaseS = 1 ∧ maxRetryS = 30 ∧ dialTimeoutS = 5 ∧
    backoffTrace cur (false :: rest)
      = (cur :: (backoffTrace (min (cur * 2) maxRetryS) rest).1,
          (backoffTrace (min (cur * 2) maxRetryS) rest).2) ∧
    backoffTrace cur (true :: rest) = backoffTrace retryBaseS rest ∧
    (backoffTrace retryBaseS (List.replicate n false)).1
      = (List.range n).map (fun j => min (2 ^ j) maxRetryS) ∧
    ∀ w ∈ (backoffTrace cur rest).1, w ≤ maxRetryS := by
  refine ⟨rfl, rfl, rfl, ?_, by simp [backoffTrace], ?_, backoffTrace_waits_le rest cur hcur⟩
  · simp [backoffTrace, backoffNext]
  · have h := backoffTrace_replicate n 0
    simpa using h

/-- Witness for C4: six consecutive failed dials from the base delay
wait 1, 2, 4, 8, 16 and then the capped 30 seconds. -/
theorem backoff_behaviour_witness :
    (backoffTrace retryBaseS (List.replicate 6 false)).1 = [1, 2, 4, 8, 16, 30] := by
  have h := (backoff_behaviour 1 [] 6 (by decide)).2.2.2.2.2.1
  rw [h]; decide

/-! ## C3: the backlog overflow policy during a disconnection drain -/

/-- One drain step keeps the backlog within the limit. -/
theorem backlogAppend_length_le (b : List FuncCall) (fn : FuncCall)
    (hb : b.length ≤ backlogLimit) :
    (backlogAppend b fn).length ≤ backlogLimit := by
  simp only [backlogAppend, backlogLimit, evictBatch] at *
  split <;> simp_all <;> omega

/-- One drain step retains a contiguous suffix of the appended list. -/
theorem backlogAppend_suffix (b : List FuncCall) (fn : FuncCall) :
    backlogAppend b fn <:+ b ++ [fn] := by
  simp only [backlogAppend]
  split
  · exact List.drop_suffix _ _
  · exact List.suffix_refl _

/-- The whole disconnection drain retains a contiguous suffix of the
initial backlog followed by the arrivals. -/
theorem disconnectDrain_suffix (arrivals : List FuncCall) :
    ∀ b, disconnectDrain b arrivals <:+ b ++ arrivals := by
  induction arrivals with
  | nil => intro b; simp [disconnectDrain]
  | cons a rest ih =>
    intro b
    have h1 : disconnectDrain b (a :: rest) = disconnectDrain (backlogAppend b a) rest := rfl
    rw [h1]
    refine (ih (backlogAppend b a)).trans ?_
    obtain ⟨w, hw⟩ := backlogAppend_suffix b a
    refine ⟨w, ?_⟩
    rw [← List.append_assoc, hw]
    simp

/-- The whole disconnection drain keeps the backlog within the limit. -/
theorem disconnectDrain_length_le (arrivals : List FuncCall) :
    ∀ b, b.length ≤ backlogLimit →
      (disconnectDrain b arrivals).length ≤ backlogLimit := by
  induction arrivals with
  | nil => intro b hb; exact hb
  | cons a rest ih =>
    intro b hb
    exact ih (backlogAppend b a) (backlogAppend_length_le b a hb)

/-- C3: during a disconnection drain the backlog never exceeds the
capacity of 10000; whenever an append takes it past the capacity, the
oldest batch of 2000 events — 20% of the capacity, not a single item —
is evicted at once; and the retained backlog is always a contiguous
suffix of the initial backlog followed by the arrivals in order. -/
theorem backlog_overflow_policy (b : List FuncCall) (fn : FuncCall)
    (arrivals : List FuncCall) (hb : b.length ≤ backlogLimit) :
    backlogLimit = 10000 ∧ evictBatch * 5 = backlogLimit ∧
    (backlogAppend b fn).length ≤ backlogLimit ∧
    (backlogLimit < b.length + 1 →
      backlogAppend b fn = (b ++ [fn]).drop evictBatch) ∧
    (disconnectDrain b arrivals).length ≤ backlogLimit ∧
    disconnectDrain b arrivals <:+ b ++ arrivals := by
  refine ⟨rfl, rfl, backlogAppend_length_le b fn hb, fun h => ?_,
    disconnectDrain_length_le arrivals b hb, disconnectDrain_suffix arrivals b⟩
  simp only [backlogAppend]
  rw [if_pos (by simpa using h)]

/-- Witness for C3 at an empty backlog and a single arrival. -/
theorem backlog_overflow_policy_witness :
    disconnectDrain [] [⟨"e", [], [], 0⟩] <:+ [] ++ [⟨"e", [], [], 0⟩] :=
  (backlog_overflow_policy [] ⟨"e", [], [], 0⟩ [⟨"e", [], [], 0⟩]
    (by simp [backlogLimit])).2.2.2.2.2

/-! ## C9: the file-sink worker survives write failures -/

/-- C9: the file worker attempts exactly one write per event, in event
order, regardless of earlier write failures — so a failed write never
terminates the worker, every subsequent event is still written, no
event is retried, and the only effect of a failure is one logged error
line per failing write.  The worker's state carries no backlog. -/
theorem file_sink_continues (encode : FuncCall → List Nat) (writeOk : Nat → Bool) :
    ∀ (evs : List FuncCall) (k : Nat),
      (processLogQueueToFile encode writeOk k evs).1 = evs.map encode ∧
      (processLogQueueToFile encode writeOk k evs).2
        = (((List.range evs.length).map (k + ·)).filter (fun i => !writeOk i)).map
            (fun i => "Fatal: Failed to write to log file: event " ++ formatUint i) := by
  intro evs
  induction evs with
  | nil => intro k; simp [processLogQueueToFile]
  | cons fn rest ih =>
    intro k
    have hrange : (List.range (rest.length + 1)).map (k + ·)
        = k :: (List.range rest.length).map (k + 1 + ·) := by
      rw [List.range_succ_eq_map]
      simp only [List.map_cons, Nat.add_zero, List.map_map]
      congr 1
      refine List.map_congr_left fun j _ => ?_
      simp only [Function.comp_apply]
      omega
    constructor
    · simp only [processLogQueueToFile, (ih (k + 1)).1, List.map_cons]
    · simp only [processLogQueueToFile, (ih (k + 1)).2, List.length_cons, hrange,
        List.filter_cons]
      by_cases hk : writeOk k <;> simp [hk]

/-! ## C1: the backlog flush after a successful dial -/

/-- When every attempted write succeeds, the backlog walk writes the
whole encodable part of the backlog in its original order and reports
no failure. -/
theorem flushWalk_success (encOk : FuncCall → Bool) (writeOk : Nat → Bool) :
    ∀ (l : List FuncCall) (k : Nat),
      (∀ j (h : j < l.length), encOk (l.get ⟨j, h⟩) → writeOk (k + j)) →
      flushWalk encOk writeOk k l = (l.filter encOk, none) := by
  intro l
  induction l with
  | nil => intro k _; simp [flushWalk]
  | cons fn rest ih =>
    intro k h
    have hshift : ∀ j (hj : j < rest.length),
        encOk (rest.get ⟨j, hj⟩) → writeOk (k + 1 + j) := by
      intro j hj he
      have := h (j + 1) (by simpa using Nat.succ_lt_succ hj) (by simpa using he)
      have harith : k + (j + 1) = k + 1 + j := by omega
      rwa [harith] at this
    by_cases he : encOk fn
    · have hw : writeOk k := by
        have := h 0 (by simp) (by simpa using he)
        simpa using this
      simp [flushWalk, he, hw, ih (k + 1) hshift, List.filter_cons]
    · simp [flushWalk, he, ih (k + 1) hshift, List.filter_cons]

/-- When the event at position `l₁.length` is encodable but its write
fails, and every earlier attempted write succeeds, the walk writes the
encodable part of the prefix and stops at that position. -/
theorem flushWalk_fail (encOk : FuncCall → Bool) (writeOk : Nat → Bool) :
    ∀ (l₁ : List FuncCall) (fn : FuncCall) (l₂ : List FuncCall) (k : Nat),
      (∀ j (h : j < l₁.length), encOk (l₁.get ⟨j, h⟩) → writeOk (k + j)) →
      encOk fn → ¬ writeOk (k + l₁.length) →
      flushWalk encOk writeOk k (l₁ ++ fn :: l₂)
        = (l₁.filter encOk, some (k + l₁.length)) := by
  intro l₁
  induction l₁ with
  | nil =>
    intro fn l₂ k _ henc hw
    simp only [List.length_nil, Nat.add_zero] at hw
    simp [flushWalk, henc, hw]
  | cons g rest ih =>
    intro fn l₂ k h henc hw
    have hshift : ∀ j (hj : j < rest.length),
        encOk (rest.get ⟨j, hj⟩) → writeOk (k + 1 + j) := by
      intro j hj he
      have := h (j + 1) (by simpa using Nat.succ_lt_succ hj) (by simpa using he)
      have harith : k + (j + 1) = k + 1 + j := by omega
      rwa [harith] at this
    have hw' : ¬ writeOk (k + 1 + rest.length) := by
      have harith : k + (g :: rest).length = k + 1 + rest.length := by
        simp; omega
      rwa [harith] at hw
    have htail := ih fn l₂ (k + 1) hshift henc hw'
    by_cases he : encOk g
    · have hwg : writeOk k := by
        have := h 0 (by simp) (by simpa using he)
        simpa using this
      have harith : k + 1 + rest.length = k + (g :: rest).length := by simp; omega
      simp [flushWalk, he, hwg, htail, List.filter_cons, harith]
    · have harith : k + 1 + rest.length = k + (g :: rest).length := by simp; omega
      simp [flushWalk, he, htail, List.filter_cons, harith]

/-- C1: after a successful dial the worker flushes the backlog
completely and in its original order (every backlogged event whose
encoding succeeds is written, in order) before it sends anything from
the live queue; and if the write of the backlogged event at position
`i = l₁.length` fails, exactly the unflushed suffix from that position
on — the failed event `fn` included — is retained as the new backlog,
and the live queue is not drained on that connection. -/
theorem backlog_flush_ordering (encOk : FuncCall → Bool)
    (writeOkB writeOkQ : Nat → Bool) (b l₁ l₂ queue : List FuncCall)
    (fn : FuncCall) :
    ((∀ j (h : j < b.length), encOk (b.get ⟨j, h⟩) → writeOkB j) →
      flushBacklog encOk writeOkB b = (b.filter encOk, [], true) ∧
      connectedRound encOk writeOkB writeOkQ b queue
        = (b.filter encOk ++ (liveSend encOk writeOkQ 0 queue).1,
            (liveSend encOk writeOkQ 0 queue).2.1,
            (liveSend encOk writeOkQ 0 queue).2.2)) ∧
    ((∀ j (h : j < l₁.length), encOk (l₁.get ⟨j, h⟩) → writeOkB j) →
      encOk fn → ¬ writeOkB l₁.length →
      flushBacklog encOk writeOkB (l₁ ++ fn :: l₂)
        = (l₁.filter encOk, fn :: l₂, false) ∧
      connectedRound encOk writeOkB writeOkQ (l₁ ++ fn :: l₂) queue
        = (l₁.filter encOk, fn :: l₂, queue)) := by
  constructor
  · intro h
    have hzero : ∀ j (hj : j < b.length), encOk (b.get ⟨j, hj⟩) → writeOkB (0 + j) := by
      intro j hj he
      simpa using h j hj he
    have hwalk := flushWalk_success encOk writeOkB b 0 hzero
    have hflush : flushBacklog encOk writeOkB b = (b.filter encOk, [], true) := by
      simp [flushBacklog, hwalk]
    refine ⟨hflush, ?_⟩
    simp [connectedRound, hflush]
  · intro h henc hw
    have hzero : ∀ j (hj : j < l₁.length), encOk (l₁.get ⟨j, hj⟩) → writeOkB (0 + j) := by
      intro j hj he
      simpa using h j hj he
    have hw0 : ¬ writeOkB (0 + l₁.length) := by simpa using hw
    have hwalk := flushWalk_fail encOk writeOkB l₁ fn l₂ 0 hzero henc hw0
    have hdrop : (l₁ ++ fn :: l₂).drop (0 + l₁.length) = fn :: l₂ := by
      simp [List.drop_left]
    have hflush : flushBacklog encOk writeOkB (l₁ ++ fn :: l₂)
        = (l₁.filter encOk, fn :: l₂, false) := by
      simp [flushBacklog, hwalk, hdrop]
    refine ⟨hflush, ?_⟩
    simp [connectedRound, hflush]

/-- Witness for C1: with the backlog `[a, x, c]` whose write fails at
position 1, the worker keeps `[x, c]` as the new backlog, sends only
`[a]`, and leaves the live queue untouched. -/
theorem backlog_flush_ordering_witness :
    flushBacklog (fun _ => true) (fun i => decide (i = 0))
        ([⟨"a", [], [], 0⟩] ++ ⟨"x", [], [], 0⟩ :: [⟨"c", [], [], 0⟩])
      = ([⟨"a", [], [], 0⟩].filter (fun _ => true),
          ⟨"x", [], [], 0⟩ :: [⟨"c", [], [], 0⟩], false) ∧
    connectedRound (fun _ => true) (fun i => decide (i = 0)) (fun _ => true)
        ([⟨"a", [], [], 0⟩] ++ ⟨"x", [], [], 0⟩ :: [⟨"c", [], [], 0⟩])
        [⟨"q", [], [], 0⟩]
      = ([⟨"a", [], [], 0⟩].filter (fun _ => true),
          ⟨"x", [], [], 0⟩ :: [⟨"c", [], [], 0⟩], [⟨"q", [], [], 0⟩]) :=
  (backlog_flush_ordering (fun _ => true) (fun i => decide (i = 0)) (fun _ => true)
      [] [⟨"a", [], [], 0⟩] [⟨"c", [], [], 0⟩] [⟨"q", [], [], 0⟩]
      ⟨"x", [], [], 0⟩).2
    (by intro j hj _; simp at hj; subst hj; decide)
    (by decide) (by decide)

/-! ## C10: the empty string identifies exactly the nil interface -/

/-- `formatInt` never returns the empty string. -/
theorem formatInt_ne_empty (i : Int) : formatInt i ≠ "" := by
  intro h
  simp only [formatInt] at h
  split at h
  · rw [String.ext_iff, String.data_append] at h
    simp at h
  · exact formatUint_ne_empty _ h

/-- `formatFloat6` never returns the empty string. -/
theorem formatFloat6_ne_empty (q : ℚ) : formatFloat6 q ≠ "" := by
  intro h
  simp only [formatFloat6] at h
  rw [String.ext_iff] at h
  simp at h

/-- C10 counterexample: the formatter does not yield the empty string
only for the nil interface value — the last-resort `%v` arm of the
`reflect` switch returns the empty string for a non-nil value whose
`%v` rendering is empty, such as an empty value of a named string type
(`reflect.Kind` `String`, matched by no earlier case). -/
theorem format_empty_not_only_nil :
    format (.vother "") = "" ∧ GoValue.vother "" ≠ .vnil :=
  ⟨rfl, by decide⟩

/-- C10 (amended): the formatter yields the empty string exactly for
the nil interface value or for a value reaching the last-resort `%v`
arm with an empty `%v` rendering; every other arm yields a nonempty
string.  A typed nil pointer — the dedicated `*[32]uint8` case as well
as the generic `reflect.Ptr` arm — formats as `"<nil>"`, so an absent
value and a nil pointer argument stay distinguishable in the output. -/
theorem format_empty_iff_nil_or_verbatim (v : GoValue) :
    (format v = "" ↔ (v = .vnil ∨ v = .vother "")) ∧
    format (.vptr32arr none) = "<nil>" ∧
    format (.vptr none) = "<nil>" := by
  refine ⟨⟨fun h => ?_, fun h => by rcases h with h | h <;> subst h <;> rfl⟩, rfl, rfl⟩
  cases v with
  | vnil => exact Or.inl rfl
  | vother repr => exact Or.inr (by rw [show repr = "" from h])
  | vint i => exact absurd h (formatInt_ne_empty i)
  | vuint n => exact absurd h (formatUint_ne_empty n)
  | vfloat q => exact absurd h (formatFloat6_ne_empty q)
  | vbytes bs =>
    by_cases hb : bs.length = 0
    · simp [format, hb] at h
    · simp only [format, if_neg hb] at h
      rw [String.ext_iff] at h
      simp at h
  | vbytesList bss =>
    by_cases hb : bss.length = 0
    · simp [format, hb] at h
    · simp only [format, if_neg hb] at h
      rw [String.ext_iff] at h
      simp at h
  | varrU32x8 ws =>
    simp only [format] at h
    rw [String.ext_iff] at h
    simp at h
  | v32arr bs =>
    simp only [format] at h
    rw [String.ext_iff] at h
    simp at h
  | vptr32arr p =>
    cases p with
    | none => simp [format] at h
    | some bs =>
      simp only [format] at h
      rw [String.ext_iff] at h
      simp at h
  | vstring s =>
    simp only [format, goQuote] at h
    rw [String.ext_iff] at h
    simp at h
  | vbool b => cases b <;> simp [format] at h
  | verror msg =>
    simp only [format, goQuote] at h
    rw [String.ext_iff] at h
    simp at h
  | vptr p =>
    cases p with
    | none => simp [format] at h
    | some addr =>
      simp only [format] at h
      rw [String.ext_iff] at h
      simp at h
  | vslice len elemType =>
    simp only [format] at h
    rw [String.ext_iff, String.data_append, String.data_append,
      String.data_append] at h
    simp at h
  | vmap len =>
    simp only [format] at h
    rw [String.ext_iff, String.data_append, String.data_append] at h
    simp at h
  | vchan elemType =>
    simp only [format] at h
    rw [String.ext_iff, String.data_append, String.data_append] at h
    simp at h
  | vfunc typeStr =>
    simp only [format] at h
    rw [String.ext_iff, String.data_append, String.data_append] at h
    simp at h

end GoAnnotate
